import Mathlib

/-!
Verification of the zenith-image-generator client-side persistence subsystem:
a shallow embedding of the generation-graph store
(`apps/web/src/stores/flowStore.ts`) and of the image blob cache
(`apps/web/src/lib/imageBlobStore.ts`), with theorems settling the spec's
claims about them.

Machine numbers are modelled as `Nat`/`Int`/`ℚ` (the quantities involved stay
far below 2^53, where JavaScript arithmetic on them is exact); `Date.now()` is
passed in explicitly as a `now : Nat` parameter; the two IndexedDB object
stores of the blob cache are modelled as association lists; fallible lookups
return `Option`.
-/

namespace Zenith

/-! ## Blob cache data model (imageBlobStore.ts) -/

/-- An image blob; the code only ever inspects `blob.size`. -/
structure Blob where
  size : Nat
deriving Repr, DecidableEq

/-- Metadata record kept in the `meta` object store (interface `BlobMeta`). -/
structure BlobMeta where
  id : String
  size : Nat
  createdAt : Nat
  lastAccessedAt : Nat
deriving Repr, DecidableEq

/-- The two object stores of the `zenith-image-blobs` database: `blobs`
(key = blob id, value = binary) and `meta` (keyPath = `id`). -/
structure Cache where
  blobs : List (String × Blob)
  metas : List BlobMeta
deriving Repr, DecidableEq

/-- `STORAGE_LIMITS.MAX_IMAGES`. -/
def MAX_IMAGES : Nat := 500

/-- `STORAGE_LIMITS.MAX_STORAGE_MB`. -/
def MAX_STORAGE_MB : Nat := 4096

/-- `STORAGE_LIMITS.WARNING_THRESHOLD_PERCENT`. -/
def WARNING_THRESHOLD_PERCENT : Nat := 80

/-- `MAX_STORAGE_MB * 1024 * 1024`, as computed in `checkStorageLimit` and
`cleanupForNewBlob`. -/
def maxStorageBytes : Nat := MAX_STORAGE_MB * 1024 * 1024

/-- `getBlobCount`: `db.count(META_STORE)`. -/
def getBlobCount (c : Cache) : Nat := c.metas.length

/-- `getTotalStorageSize`: sum of the `size` fields of all metadata records. -/
def getTotalStorageSize (c : Cache) : Nat := (c.metas.map (·.size)).sum

/-- `Math.round((t / 1024 / 1024) * 10)` for a nonnegative byte count `t`:
JavaScript `Math.round` is round-half-up, so this is
`⌊(10 * t + 2^19) / 2^20⌋`, the total size in tenths of a MiB. -/
def roundTenthsMB (t : Nat) : Nat := (10 * t + 524288) / 1048576

/-- `Math.round((t / 1024 / 1024) * 10) / 10`, the rounded MiB figure. -/
def totalSizeMBRat (t : Nat) : ℚ := (roundTenthsMB t : ℚ) / 10

/-- The non-null `reason` values of a storage-limit verdict. -/
inductive CleanupReason where
  | count
  | size
deriving Repr, DecidableEq

/-- The record returned by `checkStorageLimit` when cleanup is needed. -/
structure LimitCheck where
  needsCleanup : Bool
  reason : CleanupReason
  currentCount : Nat
  currentSizeMB : ℚ
deriving Repr, DecidableEq

/-- `checkStorageLimit(newBlobSize)`: `none` models the `null` return. -/
def checkStorageLimit (c : Cache) (newBlobSize : Nat) : Option LimitCheck :=
  let count := getBlobCount c
  let totalSize := getTotalStorageSize c
  let totalSizeMB := totalSizeMBRat totalSize
  if count ≥ MAX_IMAGES then
    some { needsCleanup := true, reason := .count,
           currentCount := count, currentSizeMB := totalSizeMB }
  else if totalSize + newBlobSize > maxStorageBytes then
    some { needsCleanup := true, reason := .size,
           currentCount := count, currentSizeMB := totalSizeMB }
  else
    none

/-- `deleteBlob(id)`: removes the binary and the metadata record keyed `id`. -/
def deleteBlob (c : Cache) (id : String) : Cache :=
  { blobs := c.blobs.filter (fun p => p.1 ≠ id),
    metas := c.metas.filter (fun m => m.id ≠ id) }

/-- `deleteBlobs(ids)`: one transaction deleting every id from both stores. -/
def deleteBlobs (c : Cache) (ids : List String) : Cache :=
  ids.foldl deleteBlob c

/-- One comparison step of scanning for the record with the smallest
`lastAccessedAt` (the record the `lastAccessedAt` index cursor yields first). -/
def olderMeta (a b : BlobMeta) : BlobMeta :=
  if b.lastAccessedAt < a.lastAccessedAt then b else a

/-- The first record delivered by an ascending cursor over the
`lastAccessedAt` index: a record with minimal `lastAccessedAt`. -/
def findOldest : List BlobMeta → Option BlobMeta
  | [] => none
  | m :: ms => some (ms.foldl olderMeta m)

/-- `removeOldestBlob`: deletes the least-recently-accessed record from both
stores, returning it; `none` models the `return false` (empty store) path. -/
def removeOldestBlob (c : Cache) : Option (BlobMeta × Cache) :=
  match findOldest c.metas with
  | none => none
  | some m => some (m, deleteBlob c m.id)

/-- The `while` condition of `cleanupForNewBlob`:
`count >= MAX_IMAGES || totalSize + newBlobSize > maxStorageBytes`. -/
def needsEviction (c : Cache) (k : Nat) : Bool :=
  getBlobCount c ≥ MAX_IMAGES || getTotalStorageSize c + k > maxStorageBytes

/-- The eviction loop of `cleanupForNewBlob`, fuelled (each iteration strictly
shrinks the metadata store, so `c.metas.length` fuel is enough); returns the
removed records in removal order together with the final cache. -/
def evictLoop : Nat → Cache → Nat → List BlobMeta × Cache
  | 0, c, _ => ([], c)
  | fuel + 1, c, k =>
    if needsEviction c k then
      match removeOldestBlob c with
      | none => ([], c)
      | some (m, c') =>
        let r := evictLoop fuel c' k
        (m :: r.1, r.2)
    else ([], c)

/-- The eviction loop run with enough fuel to drain the whole store. -/
def evictRun (c : Cache) (k : Nat) : List BlobMeta × Cache :=
  evictLoop c.metas.length c k

/-- `cleanupForNewBlob(newBlobSize)`: runs the eviction loop and returns
`true` (the `false` return is reachable only through an internal storage
exception, outside this model). -/
def cleanupForNewBlob (c : Cache) (k : Nat) : Bool × Cache :=
  (true, (evictRun c k).2)

/-- Lookup in the `blobs` object store. -/
def lookupBlob (c : Cache) (id : String) : Option Blob :=
  (c.blobs.find? (fun p => p.1 = id)).map (·.2)

/-- `getBlob(id)` at time `now`: returns the binary if present and rewrites
its metadata record with `lastAccessedAt = now`; an absent id returns `none`
and leaves the cache untouched. -/
def getBlob (c : Cache) (now : Nat) (id : String) : Option Blob × Cache :=
  match lookupBlob c id with
  | none => (none, c)
  | some b =>
    (some b,
     { c with metas := c.metas.map (fun m =>
         if m.id = id then { m with lastAccessedAt := now } else m) })

/-- The `lastAccessedAt` of the metadata record keyed `id`, if any. -/
def lastAccessOf (c : Cache) (id : String) : Option Nat :=
  (c.metas.find? (fun m => m.id = id)).map (·.lastAccessedAt)

/-- The record returned by `getStorageInfo`. -/
structure StorageInfo where
  count : Nat
  totalSizeMB : ℚ
  maxImages : Nat
  maxStorageMB : Nat
  isNearLimit : Bool
deriving Repr, DecidableEq

/-- `getStorageInfo()`: entry count, rounded MiB figure, and the near-limit
flag computed from the warning-threshold percentages. -/
def getStorageInfo (c : Cache) : StorageInfo :=
  let count := getBlobCount c
  let totalSize := getTotalStorageSize c
  let totalSizeMB := totalSizeMBRat totalSize
  let countPercent : ℚ := ((count : ℚ) / (MAX_IMAGES : ℚ)) * 100
  let sizePercent : ℚ := (totalSizeMB / (MAX_STORAGE_MB : ℚ)) * 100
  { count := count,
    totalSizeMB := totalSizeMB,
    maxImages := MAX_IMAGES,
    maxStorageMB := MAX_STORAGE_MB,
    isNearLimit :=
      decide ((WARNING_THRESHOLD_PERCENT : ℚ) ≤ countPercent ∨
              (WARNING_THRESHOLD_PERCENT : ℚ) ≤ sizePercent) }

/-! ## Generation graph store data model (flowStore.ts) -/

/-- Node identifiers: the template strings `config-${n}`, `image-${n}` and
`preview-${n}` (injective in `n`, with pairwise-distinct prefixes). -/
inductive NodeId where
  | config (n : Nat)
  | image (n : Nat)
  | preview (n : Nat)
deriving Repr, DecidableEq

/-- The numeric part of a node identifier. -/
def NodeId.idx : NodeId → Nat
  | .config n => n
  | .image n => n
  | .preview n => n

/-- A 2-D layout position. -/
structure Pos where
  x : Int
  y : Int
deriving Repr, DecidableEq

/-- `LAYOUT.FIRST_CONFIG_X`. -/
def FIRST_CONFIG_X : Int := 100
/-- `LAYOUT.FIRST_CONFIG_Y`. -/
def FIRST_CONFIG_Y : Int := 100
/-- `LAYOUT.CONFIG_SPACING`. -/
def CONFIG_SPACING : Int := 350
/-- `LAYOUT.IMAGE_OFFSET_Y`. -/
def IMAGE_OFFSET_Y : Int := 220
/-- `LAYOUT.IMAGE_SPACING_Y`. -/
def IMAGE_SPACING_Y : Int := 280

/-- Interface `ConfigData` (also the shape of the transient preview). -/
structure ConfigData where
  id : NodeId
  prompt : String
  width : Nat
  height : Nat
  batchCount : Nat
  seed : Int
  timestamp : Nat
  isPreview : Bool
deriving Repr, DecidableEq

/-- Interface `PreviewConfigInput`: the fields the user provides. -/
structure PreviewConfigInput where
  prompt : String
  width : Nat
  height : Nat
  batchCount : Nat
  seed : Int
deriving Repr, DecidableEq

/-- Interface `ImageData`. -/
structure ImageData where
  id : NodeId
  configId : NodeId
  prompt : String
  width : Nat
  height : Nat
  seed : Int
  imageUrl : Option String
  imageBlobId : Option String
  duration : Option String
  isLoading : Bool
  error : Option String
deriving Repr, DecidableEq

/-- A `Node<ConfigData>` (the constant `type`/`draggable` fields elided). -/
structure ConfigNode where
  id : NodeId
  position : Pos
  data : ConfigData
deriving Repr, DecidableEq

/-- A `Node<ImageData>`. -/
structure ImageNode where
  id : NodeId
  position : Pos
  data : ImageData
deriving Repr, DecidableEq

/-- The store state (fields relevant to the graph; lightbox and
storage-limit modal state elided as no modelled operation reads them). -/
structure FlowState where
  configNodes : List ConfigNode
  imageNodes : List ImageNode
  previewConfig : Option ConfigData
  editingConfigId : Option NodeId
  isEditingModified : Bool
  nodeIdCounter : Nat
deriving Repr, DecidableEq

/-- The initial store state. -/
def initialFlowState : FlowState :=
  { configNodes := []
    imageNodes := []
    previewConfig := none
    editingConfigId := none
    isEditingModified := false
    nodeIdCounter := 0 }

/-- `setPreviewConfig(config)` with `Date.now() = now`. -/
def setPreviewConfig (s : FlowState) (cfg : Option PreviewConfigInput)
    (now : Nat) : FlowState :=
  match cfg with
  | none => { s with previewConfig := none }
  | some c =>
    { s with previewConfig := some (
        { id := .preview (s.nodeIdCounter + 1)
          prompt := c.prompt
          width := c.width
          height := c.height
          batchCount := c.batchCount
          seed := c.seed
          timestamp := now
          isPreview := true } : ConfigData) }

/-- `getNextConfigPosition()`. -/
def getNextConfigPosition (s : FlowState) : Pos :=
  { x := FIRST_CONFIG_X + (s.configNodes.length : Int) * CONFIG_SPACING
    y := FIRST_CONFIG_Y }

/-- The image node built in iteration `i` of the `confirmConfig` loop. -/
def mkImageNode (newConfigId : NodeId) (p : ConfigData) (pos : Pos)
    (counter : Nat) (i : Nat) : ImageNode :=
  { id := .image (counter + 2 + i)
    position := { x := pos.x, y := pos.y + IMAGE_OFFSET_Y + (i : Int) * IMAGE_SPACING_Y }
    data :=
      { id := .image (counter + 2 + i)
        configId := newConfigId
        prompt := p.prompt
        width := p.width
        height := p.height
        seed := p.seed + (i : Int)
        imageUrl := none
        imageBlobId := none
        duration := none
        isLoading := true
        error := none } }

/-- `confirmConfig()`: returns the new configuration id (or `none`) together
with the next state. -/
def confirmConfig (s : FlowState) : Option NodeId × FlowState :=
  match s.previewConfig with
  | none => (none, s)
  | some p =>
    let newConfigId := NodeId.config (s.nodeIdCounter + 1)
    let position := getNextConfigPosition s
    let newConfigNode : ConfigNode :=
      { id := newConfigId
        position := position
        data := { p with id := newConfigId, isPreview := false } }
    let newImageNodes : List ImageNode :=
      (List.range p.batchCount).map (mkImageNode newConfigId p position s.nodeIdCounter)
    (some newConfigId,
     { s with
         configNodes := s.configNodes ++ [newConfigNode]
         imageNodes := s.imageNodes ++ newImageNodes
         previewConfig := none
         editingConfigId := none
         isEditingModified := false
         nodeIdCounter := s.nodeIdCounter + 1 + p.batchCount })

/-- `updateConfigPosition(configId, x, y)`. -/
def updateConfigPosition (s : FlowState) (configId : NodeId) (x y : Int) :
    FlowState :=
  match s.configNodes.find? (fun n => n.id = configId) with
  | none => s
  | some configNode =>
    let deltaX := x - configNode.position.x
    let deltaY := y - configNode.position.y
    { s with
        configNodes := s.configNodes.map (fun n =>
          if n.id = configId then { n with position := { x := x, y := y } } else n)
        imageNodes := s.imageNodes.map (fun n =>
          if n.data.configId = configId then
            { n with position :=
                { x := n.position.x + deltaX, y := n.position.y + deltaY } }
          else n) }

/-- `updateImageGenerated(imageId, url, duration, blobId)`. -/
def updateImageGenerated (s : FlowState) (imageId : NodeId) (url : String)
    (duration : String) (blobId : Option String) : FlowState :=
  { s with imageNodes := s.imageNodes.map (fun n =>
      if n.id = imageId then
        { n with data :=
            { n.data with
                imageUrl := some url
                imageBlobId := blobId
                duration := some duration
                isLoading := false } }
      else n) }

/-- `updateImageError(imageId, error)`. -/
def updateImageError (s : FlowState) (imageId : NodeId) (err : String) :
    FlowState :=
  { s with imageNodes := s.imageNodes.map (fun n =>
      if n.id = imageId then
        { n with data := { n.data with error := some err, isLoading := false } }
      else n) }

/-- The blob references collected by `deleteConfig`:
`imageNodes.filter(n => n.data.configId === configId && n.data.imageBlobId)
           .map(n => n.data.imageBlobId as string)`. -/
def configBlobIds (s : FlowState) (configId : NodeId) : List String :=
  (s.imageNodes.filter (fun n =>
      decide (n.data.configId = configId) && n.data.imageBlobId.isSome)).filterMap
    (fun n => n.data.imageBlobId)

/-- The graph part of `deleteConfig(configId)`. -/
def deleteConfig (s : FlowState) (configId : NodeId) : FlowState :=
  { s with
      configNodes := s.configNodes.filter (fun n => n.id ≠ configId)
      imageNodes := s.imageNodes.filter (fun n => n.data.configId ≠ configId) }

/-- `deleteConfig(configId)` together with its blob-cache side effect
(`deleteBlobs` is issued only when the collected list is non-empty). -/
def deleteConfigFull (s : FlowState) (cache : Cache) (configId : NodeId) :
    FlowState × Cache :=
  let blobIds := configBlobIds s configId
  (deleteConfig s configId,
   if blobIds.isEmpty then cache else deleteBlobs cache blobIds)

/-- `clearAll()` (its blob-cache side effect empties both cache stores). -/
def clearAll (_s : FlowState) : FlowState :=
  { configNodes := []
    imageNodes := []
    previewConfig := none
    editingConfigId := none
    isEditingModified := false
    nodeIdCounter := 0 }

/-- The graph-store states reachable from the initial state by the mutating
operations. -/
inductive Reachable : FlowState → Prop where
  | init : Reachable initialFlowState
  | setPreview {s} (cfg : Option PreviewConfigInput) (now : Nat) :
      Reachable s → Reachable (setPreviewConfig s cfg now)
  | confirm {s} : Reachable s → Reachable (confirmConfig s).2
  | updatePos {s} (cid : NodeId) (x y : Int) :
      Reachable s → Reachable (updateConfigPosition s cid x y)
  | imageGenerated {s} (iid : NodeId) (url dur : String) (blobId : Option String) :
      Reachable s → Reachable (updateImageGenerated s iid url dur blobId)
  | imageError {s} (iid : NodeId) (err : String) :
      Reachable s → Reachable (updateImageError s iid err)
  | delete {s} (cid : NodeId) : Reachable s → Reachable (deleteConfig s cid)
  | clear {s} : Reachable s → Reachable (clearAll s)

/-- The identifiers of all graph nodes. -/
def graphIds (s : FlowState) : List NodeId :=
  s.configNodes.map (·.id) ++ s.imageNodes.map (·.id)

/-- The numeric parts of all graph node identifiers. -/
def idxList (s : FlowState) : List Nat :=
  s.configNodes.map (fun n => NodeId.idx n.id) ++ s.imageNodes.map (fun n => NodeId.idx n.id)

/-- Owner closure: every image node's `configId` names a configuration node
present in the graph. -/
def OwnersLive (s : FlowState) : Prop :=
  ∀ img ∈ s.imageNodes, ∃ cfg ∈ s.configNodes, cfg.id = img.data.configId

/-- The inductive invariant of the graph store: owner closure, no duplicated
identifier numbers, and every identifier number at most the counter. -/
def Inv (s : FlowState) : Prop :=
  OwnersLive s ∧ (idxList s).Nodup ∧ ∀ i ∈ idxList s, i ≤ s.nodeIdCounter

/-! ## Helper lemmas: LRU scan and eviction loop -/

lemma olderMeta_eq_or (a b : BlobMeta) : olderMeta a b = a ∨ olderMeta a b = b := by
  unfold olderMeta; split <;> simp

lemma olderMeta_le_left (a b : BlobMeta) :
    (olderMeta a b).lastAccessedAt ≤ a.lastAccessedAt := by
  unfold olderMeta; split <;> omega

lemma olderMeta_le_right (a b : BlobMeta) :
    (olderMeta a b).lastAccessedAt ≤ b.lastAccessedAt := by
  unfold olderMeta; split <;> omega

lemma foldl_olderMeta_mem (l : List BlobMeta) : ∀ a, l.foldl olderMeta a ∈ a :: l := by
  induction l with
  | nil => intro a; simp
  | cons b t ih =>
    intro a
    have h := ih (olderMeta a b)
    simp only [List.foldl_cons, List.mem_cons] at *
    rcases h with h | h
    · rcases olderMeta_eq_or a b with he | he
      · left; rw [h, he]
      · right; left; rw [h, he]
    · right; right; exact h

lemma foldl_olderMeta_le (l : List BlobMeta) :
    ∀ a, ∀ x ∈ a :: l, (l.foldl olderMeta a).lastAccessedAt ≤ x.lastAccessedAt := by
  induction l with
  | nil =>
    intro a x hx
    simp only [List.mem_singleton] at hx
    subst hx
    exact le_refl _
  | cons b t ih =>
    intro a x hx
    simp only [List.foldl_cons]
    have hstart : (t.foldl olderMeta (olderMeta a b)).lastAccessedAt ≤
        (olderMeta a b).lastAccessedAt :=
      ih (olderMeta a b) (olderMeta a b) (List.mem_cons_self _ _)
    rcases List.mem_cons.mp hx with rfl | hx'
    · exact le_trans hstart (olderMeta_le_left _ _)
    · rcases List.mem_cons.mp hx' with rfl | hx''
      · exact le_trans hstart (olderMeta_le_right _ _)
      · exact ih (olderMeta a b) x (List.mem_cons_of_mem _ hx'')

lemma findOldest_eq_none {l : List BlobMeta} : findOldest l = none ↔ l = [] := by
  cases l <;> simp [findOldest]

lemma findOldest_mem {l : List BlobMeta} {m : BlobMeta} (h : findOldest l = some m) :
    m ∈ l := by
  cases l with
  | nil => simp [findOldest] at h
  | cons a t =>
    simp only [findOldest, Option.some.injEq] at h
    subst h
    exact foldl_olderMeta_mem t a

lemma findOldest_min {l : List BlobMeta} {m : BlobMeta} (h : findOldest l = some m) :
    ∀ x ∈ l, m.lastAccessedAt ≤ x.lastAccessedAt := by
  cases l with
  | nil => simp [findOldest] at h
  | cons a t =>
    simp only [findOldest, Option.some.injEq] at h
    subst h
    exact foldl_olderMeta_le t a

lemma deleteBlob_metas_sub {c : Cache} {id : String} :
    ∀ x ∈ (deleteBlob c id).metas, x ∈ c.metas := by
  intro x hx
  exact (List.mem_filter.mp hx).1

lemma length_filter_ne_lt {l : List BlobMeta} {m : BlobMeta} (hm : m ∈ l) :
    (l.filter (fun x => x.id ≠ m.id)).length < l.length := by
  induction l with
  | nil => cases hm
  | cons a t ih =>
    by_cases hp : a.id ≠ m.id
    · rw [List.filter_cons_of_pos (by simpa using hp)]
      rcases List.mem_cons.mp hm with rfl | hmt
      · exact absurd rfl hp
      · simpa using Nat.succ_lt_succ (ih hmt)
    · rw [List.filter_cons_of_neg (by simpa using hp)]
      have ht := List.length_filter_le (fun x => decide (x.id ≠ m.id)) t
      simp only [List.length_cons]
      omega

lemma removeOldestBlob_spec {c : Cache} {m : BlobMeta} {c' : Cache}
    (h : removeOldestBlob c = some (m, c')) :
    m ∈ c.metas ∧ (∀ x ∈ c.metas, m.lastAccessedAt ≤ x.lastAccessedAt) ∧
      c' = deleteBlob c m.id := by
  unfold removeOldestBlob at h
  cases hf : findOldest c.metas with
  | none => rw [hf] at h; cases h
  | some m0 =>
    rw [hf] at h
    simp only [Option.some.injEq, Prod.mk.injEq] at h
    obtain ⟨rfl, rfl⟩ := h
    exact ⟨findOldest_mem hf, findOldest_min hf, rfl⟩

lemma removeOldestBlob_none {c : Cache} (h : removeOldestBlob c = none) :
    c.metas = [] := by
  unfold removeOldestBlob at h
  cases hf : findOldest c.metas with
  | none => exact findOldest_eq_none.mp hf
  | some m => rw [hf] at h; cases h

lemma removeOldestBlob_metas_lt {c : Cache} {m : BlobMeta} {c' : Cache}
    (h : removeOldestBlob c = some (m, c')) :
    c'.metas.length < c.metas.length := by
  obtain ⟨hm, -, rfl⟩ := removeOldestBlob_spec h
  exact length_filter_ne_lt hm

lemma evictLoop_removed_mem :
    ∀ (fuel : Nat) (c : Cache) (k : Nat), ∀ x ∈ (evictLoop fuel c k).1, x ∈ c.metas := by
  intro fuel
  induction fuel with
  | zero => intro c k x hx; simp [evictLoop] at hx
  | succ fuel ih =>
    intro c k x hx
    rw [evictLoop] at hx
    split at hx
    · cases hr : removeOldestBlob c with
      | none => rw [hr] at hx; simp at hx
      | some p =>
        obtain ⟨m, c'⟩ := p
        rw [hr] at hx
        simp only [List.mem_cons] at hx
        obtain ⟨hm, -, rfl⟩ := removeOldestBlob_spec hr
        rcases hx with rfl | hx'
        · exact hm
        · exact deleteBlob_metas_sub x (ih _ k x hx')
    · simp at hx

lemma evictLoop_chain :
    ∀ (fuel : Nat) (c : Cache) (k : Nat),
      List.Chain' (fun a b => a.lastAccessedAt ≤ b.lastAccessedAt) (evictLoop fuel c k).1 := by
  intro fuel
  induction fuel with
  | zero => intro c k; simp [evictLoop]
  | succ fuel ih =>
    intro c k
    rw [evictLoop]
    split
    · cases hr : removeOldestBlob c with
      | none => simp
      | some p =>
        obtain ⟨m, c'⟩ := p
        simp only
        rw [List.chain'_cons']
        obtain ⟨-, hmin, rfl⟩ := removeOldestBlob_spec hr
        refine ⟨?_, ih _ k⟩
        intro y hy
        have hy1 : y ∈ (evictLoop fuel (deleteBlob c m.id) k).1 :=
          List.mem_of_mem_head? hy
        exact hmin y (deleteBlob_metas_sub y (evictLoop_removed_mem fuel _ k y hy1))
    · simp

lemma evictLoop_removed_length :
    ∀ (fuel : Nat) (c : Cache) (k : Nat),
      (evictLoop fuel c k).1.length ≤ c.metas.length := by
  intro fuel
  induction fuel with
  | zero => intro c k; simp [evictLoop]
  | succ fuel ih =>
    intro c k
    rw [evictLoop]
    split
    · cases hr : removeOldestBlob c with
      | none => simp
      | some p =>
        obtain ⟨m, c'⟩ := p
        simp only [List.length_cons]
        have h1 := ih c' k
        have h2 := removeOldestBlob_metas_lt hr
        omega
    · simp

lemma evictLoop_stable :
    ∀ (fuel : Nat) (c : Cache) (k : Nat), c.metas.length ≤ fuel →
      needsEviction (evictLoop fuel c k).2 k = false ∨
        (evictLoop fuel c k).2.metas = [] := by
  intro fuel
  induction fuel with
  | zero =>
    intro c k h
    right
    simpa [evictLoop] using List.length_eq_zero.mp (Nat.le_zero.mp h)
  | succ fuel ih =>
    intro c k h
    rw [evictLoop]
    split
    · cases hr : removeOldestBlob c with
      | none => right; simpa using removeOldestBlob_none hr
      | some p =>
        obtain ⟨m, c'⟩ := p
        have h2 := removeOldestBlob_metas_lt hr
        exact ih c' k (by omega)
    · left; simpa using Bool.of_not_eq_true (by assumption)

lemma evictLoop_of_fits {fuel : Nat} {c : Cache} {k : Nat}
    (h : needsEviction c k = false) : evictLoop fuel c k = ([], c) := by
  cases fuel <;> simp [evictLoop, h]

/-! ## Claim C3: checkStorageLimit -/

/-- C3: for every cache state and candidate size, `checkStorageLimit` returns
a needs-cleanup verdict with reason `count` iff the entry count is at or above
`MAX_IMAGES` (500); otherwise it returns reason `size` iff current total bytes
plus the candidate exceed `maxStorageBytes` (4096 MiB); otherwise it reports no
cleanup needed (`none`). Count is decided first, and the function is pure, so
the cache is not modified. -/
theorem checkStorageLimit_spec :
    ∀ (c : Cache) (k : Nat),
      ((∃ r, checkStorageLimit c k = some r ∧ r.needsCleanup = true ∧
          r.reason = CleanupReason.count) ↔ MAX_IMAGES ≤ getBlobCount c) ∧
      ((∃ r, checkStorageLimit c k = some r ∧ r.needsCleanup = true ∧
          r.reason = CleanupReason.size) ↔
        getBlobCount c < MAX_IMAGES ∧ maxStorageBytes < getTotalStorageSize c + k) ∧
      (checkStorageLimit c k = none ↔
        getBlobCount c < MAX_IMAGES ∧ getTotalStorageSize c + k ≤ maxStorageBytes) := by
  intro c k
  by_cases h1 : MAX_IMAGES ≤ getBlobCount c
  · have he : checkStorageLimit c k = some
        { needsCleanup := true, reason := .count, currentCount := getBlobCount c,
          currentSizeMB := totalSizeMBRat (getTotalStorageSize c) } := by
      simp [checkStorageLimit, h1]
    refine ⟨?_, ?_, ?_⟩ <;> simp [he] <;> omega
  · by_cases h2 : maxStorageBytes < getTotalStorageSize c + k
    · have he : checkStorageLimit c k = some
          { needsCleanup := true, reason := .size, currentCount := getBlobCount c,
            currentSizeMB := totalSizeMBRat (getTotalStorageSize c) } := by
        simp [checkStorageLimit, h1, h2]
      refine ⟨?_, ?_, ?_⟩ <;> simp [he] <;> omega
    · have he : checkStorageLimit c k = none := by
        simp [checkStorageLimit, h1, h2]
      refine ⟨?_, ?_, ?_⟩ <;> simp [he] <;> omega

/-- C3 witness: on the empty cache with candidate size 0, `checkStorageLimit`
reports that no cleanup is needed. -/
theorem checkStorageLimit_spec_witness :
    checkStorageLimit ⟨[], []⟩ 0 = none :=
  ((checkStorageLimit_spec ⟨[], []⟩ 0).2.2).mpr (by constructor <;> decide)

/-! ## Claim C4: cleanupForNewBlob when room cannot be made -/

/-- C4 counterexample: on an empty cache and a candidate of
`maxStorageBytes + 1` bytes, the eviction loop stops with the byte ceiling
still violated, yet `cleanupForNewBlob` returns `true` — it reports success
instead of signalling inability to make room. -/
theorem cleanupForNewBlob_counterexample :
    (cleanupForNewBlob ⟨[], []⟩ 4294967297).1 = true ∧
      needsEviction (cleanupForNewBlob ⟨[], []⟩ 4294967297).2 4294967297 = true := by
  constructor <;> rfl

/-- C4 (amended): `cleanupForNewBlob` repeatedly removes the entry with the
oldest `lastAccessedAt` until both ceilings (accounting for the candidate
size) are satisfied or no entries remain; but in every case — including a
candidate that can never fit, where eviction stops on the emptied store — it
returns `true`; `false` is returned only on an internal storage exception
(outside this model). -/
theorem cleanupForNewBlob_spec :
    ∀ (c : Cache) (k : Nat),
      (cleanupForNewBlob c k).1 = true ∧
      (needsEviction (cleanupForNewBlob c k).2 k = false ∨
        (cleanupForNewBlob c k).2.metas = []) := by
  intro c k
  refine ⟨rfl, ?_⟩
  exact evictLoop_stable c.metas.length c k (le_refl _)

/-- C4 witness: a cache holding one 1-byte entry and a candidate of
`maxStorageBytes` bytes; cleanup evicts the entry and reports success with
the ceilings now satisfied. -/
theorem cleanupForNewBlob_spec_witness :
    (cleanupForNewBlob ⟨[("a", ⟨1⟩)], [⟨"a", 1, 0, 0⟩]⟩ 4294967296).1 = true ∧
      (needsEviction (cleanupForNewBlob ⟨[("a", ⟨1⟩)], [⟨"a", 1, 0, 0⟩]⟩ 4294967296).2
          4294967296 = false ∨
        (cleanupForNewBlob ⟨[("a", ⟨1⟩)], [⟨"a", 1, 0, 0⟩]⟩ 4294967296).2.metas = []) :=
  cleanupForNewBlob_spec ⟨[("a", ⟨1⟩)], [⟨"a", 1, 0, 0⟩]⟩ 4294967296

/-! ## Claim C5: eviction order and termination -/

/-- C5: one run of the eviction loop removes entries one at a time, each a
member of the initial metadata store, in non-decreasing `lastAccessedAt`
order; it performs at most as many removal steps as there were entries, and
stops exactly when both ceilings are satisfied or the store is empty — in
particular, if the ceilings already hold it removes nothing. -/
theorem evictUntilFits_order_spec :
    ∀ (c : Cache) (k : Nat),
      List.Chain' (fun a b => a.lastAccessedAt ≤ b.lastAccessedAt) (evictRun c k).1 ∧
      (∀ x ∈ (evictRun c k).1, x ∈ c.metas) ∧
      (evictRun c k).1.length ≤ c.metas.length ∧
      (needsEviction (evictRun c k).2 k = false ∨ (evictRun c k).2.metas = []) ∧
      (needsEviction c k = false → (evictRun c k).1 = []) := by
  intro c k
  refine ⟨evictLoop_chain _ c k, evictLoop_removed_mem _ c k,
    evictLoop_removed_length _ c k, evictLoop_stable _ c k (le_refl _), ?_⟩
  intro h
  rw [evictRun, evictLoop_of_fits h]

/-- C5 witness: a two-entry cache over the count ceiling is drained in
ascending `lastAccessedAt` order. -/
theorem evictUntilFits_order_spec_witness :
    List.Chain' (fun a b => a.lastAccessedAt ≤ b.lastAccessedAt)
      (evictRun ⟨[], [⟨"a", 1, 0, 5⟩, ⟨"b", 1, 0, 3⟩]⟩ 4294967296).1 ∧
      (evictRun ⟨[], [⟨"a", 1, 0, 5⟩, ⟨"b", 1, 0, 3⟩]⟩ 4294967296).1.length ≤ 2 :=
  ⟨(evictUntilFits_order_spec ⟨[], [⟨"a", 1, 0, 5⟩, ⟨"b", 1, 0, 3⟩]⟩ 4294967296).1,
   (evictUntilFits_order_spec ⟨[], [⟨"a", 1, 0, 5⟩, ⟨"b", 1, 0, 3⟩]⟩ 4294967296).2.2.1⟩

/-! ## Claim C8: getBlob -/

lemma find?_map_touch (l : List BlobMeta) (id : String) (t : Nat) :
    (l.map (fun m => if m.id = id then { m with lastAccessedAt := t } else m)).find?
        (fun m => m.id = id) =
      (l.find? (fun m => m.id = id)).map (fun m => { m with lastAccessedAt := t }) := by
  induction l with
  | nil => rfl
  | cons a l ih =>
    by_cases ha : a.id = id
    · simp [List.find?_cons, ha]
    · simp [List.find?_cons, ha, ih]

/-- C8: `getBlob` on a stored id returns the binary and rewrites the entry's
`lastAccessedAt` to the call time, while an absent id returns `none` and
leaves the cache (binaries and metadata) unchanged; consequently, with
non-decreasing clock readings, an entry's `lastAccessedAt` never decreases
across two successive `getBlob` calls for it. -/
theorem getBlob_spec :
    (∀ (c : Cache) (t : Nat) (id : String),
      lookupBlob c id = none → getBlob c t id = (none, c)) ∧
    (∀ (c : Cache) (t : Nat) (id : String) (b : Blob),
      lookupBlob c id = some b →
      (getBlob c t id).1 = some b ∧
      ((c.metas.find? (fun m => m.id = id)).isSome →
        lastAccessOf (getBlob c t id).2 id = some t)) ∧
    (∀ (c : Cache) (t1 t2 : Nat) (id : String) (v : Nat),
      t1 ≤ t2 →
      lastAccessOf (getBlob c t1 id).2 id = some v →
      ∃ w, lastAccessOf (getBlob (getBlob c t1 id).2 t2 id).2 id = some w ∧ v ≤ w) := by
  refine ⟨?_, ?_, ?_⟩
  · intro c t id h
    simp [getBlob, h]
  · intro c t id b h
    refine ⟨by simp [getBlob, h], ?_⟩
    intro hm
    obtain ⟨m, hm⟩ := Option.isSome_iff_exists.mp hm
    have hmetas : (getBlob c t id).2.metas =
        c.metas.map (fun m => if m.id = id then { m with lastAccessedAt := t } else m) := by
      rw [getBlob, h]
    rw [lastAccessOf, hmetas, find?_map_touch, hm]
    simp
  · intro c t1 t2 id v h12 hv
    cases hb : lookupBlob c id with
    | none =>
      have he1 : getBlob c t1 id = (none, c) := by rw [getBlob, hb]
      have he2 : getBlob c t2 id = (none, c) := by rw [getBlob, hb]
      rw [he1] at hv ⊢
      rw [he2]
      exact ⟨v, hv, le_refl v⟩
    | some b =>
      have hmetas : (getBlob c t1 id).2.metas =
          c.metas.map (fun m => if m.id = id then { m with lastAccessedAt := t1 } else m) := by
        rw [getBlob, hb]
      have hblobs : (getBlob c t1 id).2.blobs = c.blobs := by
        rw [getBlob, hb]
      have hb1 : lookupBlob (getBlob c t1 id).2 id = some b := by
        rw [lookupBlob, hblobs, ← lookupBlob, hb]
      cases hf : c.metas.find? (fun m => m.id = id) with
      | none =>
        rw [lastAccessOf, hmetas, find?_map_touch, hf] at hv
        cases hv
      | some m =>
        rw [lastAccessOf, hmetas, find?_map_touch, hf] at hv
        simp only [Option.map_some', Option.some.injEq] at hv
        have hmetas2 : (getBlob (getBlob c t1 id).2 t2 id).2.metas =
            (getBlob c t1 id).2.metas.map
              (fun m => if m.id = id then { m with lastAccessedAt := t2 } else m) := by
          rw [getBlob, hb1]
        refine ⟨t2, ?_, by omega⟩
        rw [lastAccessOf, hmetas2, find?_map_touch, hmetas, find?_map_touch, hf]
        have : m.id = id := by
          have := List.find?_some hf
          simpa using this
        simp

/-- C8 witness: a one-entry cache read at times 3 then 7; the second read
reports `lastAccessedAt = 7 ≥ 3`. -/
theorem getBlob_spec_witness :
    (3 : Nat) ≤ 7 ∧
      ∃ w, lastAccessOf
          (getBlob (getBlob ⟨[("a", ⟨9⟩)], [⟨"a", 9, 0, 0⟩]⟩ 3 "a").2 7 "a").2 "a" =
            some w ∧ 3 ≤ w :=
  ⟨by decide,
   getBlob_spec.2.2 ⟨[("a", ⟨9⟩)], [⟨"a", 9, 0, 0⟩]⟩ 3 7 "a" 3 (by decide) (by decide)⟩

/-! ## Claim C9: getStorageInfo -/

lemma near_count_iff (n : Nat) : ((80 : ℚ) ≤ ((n : ℚ) / 500) * 100) ↔ 400 ≤ n := by
  rw [div_mul_eq_mul_div, le_div_iff₀ (by norm_num : (0:ℚ) < 500)]
  constructor
  · intro h
    have h4 : (400 : ℚ) ≤ (n : ℚ) := by linarith
    exact_mod_cast h4
  · intro h
    have h4 : (400 : ℚ) ≤ (n : ℚ) := by exact_mod_cast h
    linarith

lemma near_size_iff (r : Nat) : ((80 : ℚ) ≤ (((r : ℚ) / 10) / 4096) * 100) ↔ 32768 ≤ r := by
  rw [div_div, div_mul_eq_mul_div, le_div_iff₀ (by norm_num : (0:ℚ) < 10 * 4096)]
  constructor
  · intro h
    have h4 : (32768 : ℚ) ≤ (r : ℚ) := by linarith
    exact_mod_cast h4
  · intro h
    have h4 : (32768 : ℚ) ≤ (r : ℚ) := by exact_mod_cast h
    linarith

lemma isNearLimit_iff (c : Cache) :
    (getStorageInfo c).isNearLimit = true ↔
      (400 ≤ getBlobCount c ∨ 32768 ≤ roundTenthsMB (getTotalStorageSize c)) := by
  have h1 : (getStorageInfo c).isNearLimit =
      decide ((WARNING_THRESHOLD_PERCENT : ℚ) ≤
          ((getBlobCount c : ℚ) / (MAX_IMAGES : ℚ)) * 100 ∨
        (WARNING_THRESHOLD_PERCENT : ℚ) ≤
          (totalSizeMBRat (getTotalStorageSize c) / (MAX_STORAGE_MB : ℚ)) * 100) := rfl
  have e1 : ((WARNING_THRESHOLD_PERCENT : Nat) : ℚ) = 80 := by
    norm_num [WARNING_THRESHOLD_PERCENT]
  have e2 : ((MAX_IMAGES : Nat) : ℚ) = 500 := by norm_num [MAX_IMAGES]
  have e3 : ((MAX_STORAGE_MB : Nat) : ℚ) = 4096 := by norm_num [MAX_STORAGE_MB]
  rw [h1, decide_eq_true_iff, e1, e2, e3, totalSizeMBRat]
  exact or_congr (near_count_iff _) (near_size_iff _)

/-- C9 counterexample: a cache holding one blob of 3435921408 bytes
(3276.75 MiB, which `Math.round` bumps to the 3276.8 MiB warning mark).
`getStorageInfo` reports `isNearLimit = true`, although the entry count (1) is
below 80% of the entry ceiling and the stored bytes are strictly below 80% of
the byte ceiling (3435973836.8 bytes) — refuting the claimed iff. -/
theorem getStorageInfo_counterexample :
    (getStorageInfo ⟨[], [⟨"a", 3435921408, 0, 0⟩]⟩).isNearLimit = true ∧
    ¬(((WARNING_THRESHOLD_PERCENT : ℚ) / 100) * (MAX_IMAGES : ℚ) ≤
        (getBlobCount ⟨[], [⟨"a", 3435921408, 0, 0⟩]⟩ : ℚ) ∨
      ((WARNING_THRESHOLD_PERCENT : ℚ) / 100) * (maxStorageBytes : ℚ) ≤
        (getTotalStorageSize ⟨[], [⟨"a", 3435921408, 0, 0⟩]⟩ : ℚ)) := by
  constructor
  · exact (isNearLimit_iff _).mpr (Or.inr (by decide))
  · push_neg
    constructor <;>
      norm_num [WARNING_THRESHOLD_PERCENT, MAX_IMAGES, maxStorageBytes, MAX_STORAGE_MB,
        getBlobCount, getTotalStorageSize]

/-- C9 (amended): `getStorageInfo` returns the entry count and the total size
in MiB rounded to one decimal place, and its near-limit flag is true iff the
count is at or above 80% of the 500-entry ceiling or the rounded MiB figure is
at or above 80% of the 4096-MiB ceiling (i.e. iff
`roundTenthsMB totalBytes ≥ 32768` tenths = 3276.8 MiB) — the size test uses
the rounded megabyte figure, not the raw byte total. -/
theorem getStorageInfo_spec :
    ∀ c : Cache,
      (getStorageInfo c).count = getBlobCount c ∧
      (getStorageInfo c).totalSizeMB = totalSizeMBRat (getTotalStorageSize c) ∧
      ((getStorageInfo c).isNearLimit = true ↔
        (400 ≤ getBlobCount c ∨ 32768 ≤ roundTenthsMB (getTotalStorageSize c))) :=
  fun c => ⟨rfl, rfl, isNearLimit_iff c⟩

/-- C9 witness: the amended characterization evaluated on the empty cache. -/
theorem getStorageInfo_spec_witness :
    (getStorageInfo ⟨[], []⟩).count = getBlobCount ⟨[], []⟩ ∧
      (getStorageInfo ⟨[], []⟩).totalSizeMB = totalSizeMBRat (getTotalStorageSize ⟨[], []⟩) ∧
      ((getStorageInfo ⟨[], []⟩).isNearLimit = true ↔
        (400 ≤ getBlobCount ⟨[], []⟩ ∨ 32768 ≤ roundTenthsMB (getTotalStorageSize ⟨[], []⟩))) :=
  getStorageInfo_spec ⟨[], []⟩

/-! ## Claim C1: confirmConfig -/

lemma confirmConfig_some {s : FlowState} {p : ConfigData} (hp : s.previewConfig = some p) :
    confirmConfig s =
      (some (NodeId.config (s.nodeIdCounter + 1)),
       { s with
           configNodes := s.configNodes ++
             [{ id := NodeId.config (s.nodeIdCounter + 1)
                position := getNextConfigPosition s
                data := { p with id := NodeId.config (s.nodeIdCounter + 1), isPreview := false } }]
           imageNodes := s.imageNodes ++
             (List.range p.batchCount).map
               (mkImageNode (NodeId.config (s.nodeIdCounter + 1)) p
                 (getNextConfigPosition s) s.nodeIdCounter)
           previewConfig := none
           editingConfigId := none
           isEditingModified := false
           nodeIdCounter := s.nodeIdCounter + 1 + p.batchCount }) := by
  rw [confirmConfig, hp]

lemma confirm_after_setPreview_len (s : FlowState) (q : PreviewConfigInput) (t : Nat) :
    (confirmConfig (setPreviewConfig s (some q) t)).2.imageNodes.length =
      s.imageNodes.length + q.batchCount := by
  rw [setPreviewConfig]
  rw [confirmConfig_some rfl]
  simp

/-- C1: with a non-null preview of batch count `b` and seed `s`,
`confirmConfig` appends exactly one configuration node and exactly `b` image
nodes — image `i` owned by the new configuration id and carrying seed
`s + i` — clears the preview, and returns the new configuration id; with a
null preview it returns `none` and leaves the state unchanged. Consequently,
over any sequence of set-preview-then-confirm rounds, the image-node count
grows by exactly the sum of the confirmed previews' batch counts. -/
theorem confirmConfig_spec :
    (∀ (s : FlowState) (p : ConfigData), s.previewConfig = some p →
      (confirmConfig s).1 = some (NodeId.config (s.nodeIdCounter + 1)) ∧
      (∃ cfg : ConfigNode,
        (confirmConfig s).2.configNodes = s.configNodes ++ [cfg] ∧
        cfg.id = NodeId.config (s.nodeIdCounter + 1)) ∧
      (∃ imgs : List ImageNode,
        (confirmConfig s).2.imageNodes = s.imageNodes ++ imgs ∧
        imgs.length = p.batchCount ∧
        ∀ i (hi : i < imgs.length),
          (imgs.get ⟨i, hi⟩).data.configId = NodeId.config (s.nodeIdCounter + 1) ∧
          (imgs.get ⟨i, hi⟩).data.seed = p.seed + (i : Int)) ∧
      (confirmConfig s).2.previewConfig = none) ∧
    (∀ s : FlowState, s.previewConfig = none → confirmConfig s = (none, s)) ∧
    (∀ (s : FlowState) (l : List (PreviewConfigInput × Nat)),
      (l.foldl (fun st q => (confirmConfig (setPreviewConfig st (some q.1) q.2)).2)
          s).imageNodes.length =
        s.imageNodes.length + (l.map (fun q => q.1.batchCount)).sum) := by
  refine ⟨?_, ?_, ?_⟩
  · intro s p hp
    rw [confirmConfig_some hp]
    refine ⟨rfl, ⟨_, rfl, rfl⟩, ⟨_, rfl, by simp, ?_⟩, rfl⟩
    intro i hi
    simp [mkImageNode]
  · intro s h
    rw [confirmConfig, h]
  · intro s l
    induction l generalizing s with
    | nil => simp
    | cons q l ih =>
      simp only [List.foldl_cons, List.map_cons, List.sum_cons]
      rw [ih]
      rw [confirm_after_setPreview_len]
      omega

/-- C1 witness: confirming a preview with batch count 2 and seed 10 from the
initial state returns `config-1` and clears the preview. -/
theorem confirmConfig_spec_witness :
    (confirmConfig (setPreviewConfig initialFlowState
        (some ⟨"p", 2, 2, 2, 10⟩) 0)).1 = some (NodeId.config 1) ∧
    (confirmConfig (setPreviewConfig initialFlowState
        (some ⟨"p", 2, 2, 2, 10⟩) 0)).2.previewConfig = none :=
  ⟨(confirmConfig_spec.1 _ _ rfl).1, (confirmConfig_spec.1 _ _ rfl).2.2.2⟩

/-! ## Claim C6: layout positions -/

/-- C6: when `confirmConfig` succeeds with `n` already-confirmed
configuration nodes, the new configuration node sits at
`(100 + n * 350, 100)`, and its image node `i` sits at
`(configX, configY + 220 + i * 280)`. -/
theorem confirmConfig_layout :
    ∀ (s : FlowState) (p : ConfigData), s.previewConfig = some p →
      ∃ (cfg : ConfigNode) (imgs : List ImageNode),
        (confirmConfig s).2.configNodes = s.configNodes ++ [cfg] ∧
        cfg.position = ⟨100 + (s.configNodes.length : Int) * 350, 100⟩ ∧
        (confirmConfig s).2.imageNodes = s.imageNodes ++ imgs ∧
        imgs.length = p.batchCount ∧
        ∀ i (hi : i < imgs.length),
          (imgs.get ⟨i, hi⟩).position =
            ⟨cfg.position.x, cfg.position.y + 220 + (i : Int) * 280⟩ := by
  intro s p hp
  rw [confirmConfig_some hp]
  refine ⟨_, _, rfl, rfl, rfl, by simp, ?_⟩
  intro i hi
  simp only [List.get_eq_getElem, List.getElem_map, List.getElem_range, mkImageNode]
  rfl

/-- C6 witness: batch count 3 from the initial state; the configuration node
lands at `(100, 100)` and its images at y-offsets 220, 500, 780. -/
theorem confirmConfig_layout_witness :
    (∃ (cfg : ConfigNode) (imgs : List ImageNode),
      (confirmConfig (setPreviewConfig initialFlowState
          (some ⟨"p", 2, 2, 3, 10⟩) 0)).2.configNodes =
        (setPreviewConfig initialFlowState (some ⟨"p", 2, 2, 3, 10⟩) 0).configNodes ++ [cfg] ∧
      cfg.position = ⟨100 + (((setPreviewConfig initialFlowState
          (some ⟨"p", 2, 2, 3, 10⟩) 0).configNodes.length : Int)) * 350, 100⟩ ∧
      (confirmConfig (setPreviewConfig initialFlowState
          (some ⟨"p", 2, 2, 3, 10⟩) 0)).2.imageNodes =
        (setPreviewConfig initialFlowState (some ⟨"p", 2, 2, 3, 10⟩) 0).imageNodes ++ imgs ∧
      imgs.length = 3 ∧
      ∀ i (hi : i < imgs.length),
        (imgs.get ⟨i, hi⟩).position =
          ⟨cfg.position.x, cfg.position.y + 220 + (i : Int) * 280⟩) ∧
    ((confirmConfig (setPreviewConfig initialFlowState
        (some ⟨"p", 2, 2, 3, 10⟩) 0)).2.imageNodes.map (fun n => n.position)) =
      [⟨100, 320⟩, ⟨100, 600⟩, ⟨100, 880⟩] :=
  ⟨confirmConfig_layout _ ⟨.preview 1, "p", 2, 2, 3, 10, 0, true⟩ rfl, by decide⟩

/-! ## Claim C7: updateConfigPosition -/

/-- C7: when configuration `c` is found at `(px, py)`,
`updateConfigPosition c x y` moves it to `(x, y)` and translates every image
node owned by `c` by the delta `(x - px, y - py)`; ids, data fields, nodes
not owned by `c`, and the remaining state fields are unchanged; when `c` is
not found, the call is a no-op. -/
theorem updateConfigPosition_spec :
    (∀ (s : FlowState) (c : NodeId) (x y : Int) (node : ConfigNode),
      s.configNodes.find? (fun n => n.id = c) = some node →
      List.Forall₂ (fun n n' : ConfigNode =>
          n'.id = n.id ∧ n'.data = n.data ∧
          n'.position = if n.id = c then ({ x := x, y := y } : Pos) else n.position)
        s.configNodes (updateConfigPosition s c x y).configNodes ∧
      List.Forall₂ (fun n n' : ImageNode =>
          n'.id = n.id ∧ n'.data = n.data ∧
          n'.position = if n.data.configId = c then
              ({ x := n.position.x + (x - node.position.x),
                 y := n.position.y + (y - node.position.y) } : Pos)
            else n.position)
        s.imageNodes (updateConfigPosition s c x y).imageNodes ∧
      (updateConfigPosition s c x y).previewConfig = s.previewConfig ∧
      (updateConfigPosition s c x y).editingConfigId = s.editingConfigId ∧
      (updateConfigPosition s c x y).isEditingModified = s.isEditingModified ∧
      (updateConfigPosition s c x y).nodeIdCounter = s.nodeIdCounter) ∧
    (∀ (s : FlowState) (c : NodeId) (x y : Int),
      s.configNodes.find? (fun n => n.id = c) = none →
      updateConfigPosition s c x y = s) := by
  constructor
  · intro s c x y node hfind
    have he : updateConfigPosition s c x y =
        { s with
            configNodes := s.configNodes.map (fun n =>
              if n.id = c then { n with position := { x := x, y := y } } else n)
            imageNodes := s.imageNodes.map (fun n =>
              if n.data.configId = c then
                { n with position :=
                    { x := n.position.x + (x - node.position.x),
                      y := n.position.y + (y - node.position.y) } }
              else n) } := by
      rw [updateConfigPosition, hfind]
    rw [he]
    refine ⟨?_, ?_, rfl, rfl, rfl, rfl⟩
    · rw [List.forall₂_map_right_iff, List.forall₂_same]
      intro n _
      by_cases h : n.id = c <;> simp [h]
    · rw [List.forall₂_map_right_iff, List.forall₂_same]
      intro n _
      by_cases h : n.data.configId = c <;> simp [h]
  · intro s c x y hfind
    rw [updateConfigPosition, hfind]

/-- C7 witness: the spec scenario — a configuration at `(0, 0)` with two
owned images at `(0, 220)` and `(0, 500)` moved to `(10, 20)`; the update
translates the images to `(10, 240)` and `(10, 520)`. -/
theorem updateConfigPosition_spec_witness :
    List.Forall₂ (fun n n' : ImageNode =>
        n'.id = n.id ∧ n'.data = n.data ∧
        n'.position = if n.data.configId = NodeId.config 1 then
            ({ x := n.position.x + (10 - (0 : Int)),
               y := n.position.y + (20 - (0 : Int)) } : Pos)
          else n.position)
      [⟨.image 2, ⟨0, 220⟩, ⟨.image 2, .config 1, "p", 1, 1, 10, none, none, none, true, none⟩⟩,
       ⟨.image 3, ⟨0, 500⟩, ⟨.image 3, .config 1, "p", 1, 1, 11, none, none, none, true, none⟩⟩]
      (updateConfigPosition
        ⟨[⟨.config 1, ⟨0, 0⟩, ⟨.config 1, "p", 1, 1, 2, 10, 0, false⟩⟩],
         [⟨.image 2, ⟨0, 220⟩, ⟨.image 2, .config 1, "p", 1, 1, 10, none, none, none, true, none⟩⟩,
          ⟨.image 3, ⟨0, 500⟩, ⟨.image 3, .config 1, "p", 1, 1, 11, none, none, none, true, none⟩⟩],
         none, none, false, 3⟩
        (NodeId.config 1) 10 20).imageNodes ∧
    (updateConfigPosition
        ⟨[⟨.config 1, ⟨0, 0⟩, ⟨.config 1, "p", 1, 1, 2, 10, 0, false⟩⟩,],
         [⟨.image 2, ⟨0, 220⟩, ⟨.image 2, .config 1, "p", 1, 1, 10, none, none, none, true, none⟩⟩,
          ⟨.image 3, ⟨0, 500⟩, ⟨.image 3, .config 1, "p", 1, 1, 11, none, none, none, true, none⟩⟩],
         none, none, false, 3⟩
        (NodeId.config 1) 10 20).imageNodes.map (fun n => n.position) = [⟨10, 240⟩, ⟨10, 520⟩] :=
  ⟨(updateConfigPosition_spec.1
      ⟨[⟨.config 1, ⟨0, 0⟩, ⟨.config 1, "p", 1, 1, 2, 10, 0, false⟩⟩],
       [⟨.image 2, ⟨0, 220⟩, ⟨.image 2, .config 1, "p", 1, 1, 10, none, none, none, true, none⟩⟩,
        ⟨.image 3, ⟨0, 500⟩, ⟨.image 3, .config 1, "p", 1, 1, 11, none, none, none, true, none⟩⟩],
       none, none, false, 3⟩
      (NodeId.config 1) 10 20
      ⟨.config 1, ⟨0, 0⟩, ⟨.config 1, "p", 1, 1, 2, 10, 0, false⟩⟩ rfl).2.1,
   by decide⟩

/-! ## Claim C10: identifier freshness invariant -/

lemma map_comp_eq {α β : Type} (l : List α) (f : α → α) (g : α → β)
    (h : ∀ a ∈ l, g (f a) = g a) : (l.map f).map g = l.map g := by
  induction l with
  | nil => rfl
  | cons a t ih =>
    simp only [List.map_cons]
    rw [h a (List.mem_cons_self a t), ih (fun x hx => h x (List.mem_cons_of_mem a hx))]

lemma nodup_append_fresh {A B N : List Nat} {cb : Nat}
    (hnd : (A ++ B).Nodup) (hbd : ∀ i ∈ A ++ B, i ≤ cb)
    (hN : N.Nodup) (hNlow : ∀ i ∈ N, cb + 2 ≤ i) :
    ((A ++ [cb + 1]) ++ (B ++ N)).Nodup := by
  rw [List.nodup_append] at hnd
  obtain ⟨hA, hB, hABd⟩ := hnd
  have hAbd : ∀ i ∈ A, i ≤ cb := fun i hi => hbd i (List.mem_append_left _ hi)
  have hBbd : ∀ i ∈ B, i ≤ cb := fun i hi => hbd i (List.mem_append_right _ hi)
  rw [List.nodup_append]
  refine ⟨?_, ?_, ?_⟩
  · rw [List.nodup_append]
    refine ⟨hA, List.nodup_singleton _, ?_⟩
    intro a ha hax
    rw [List.mem_singleton] at hax
    have := hAbd a ha
    omega
  · rw [List.nodup_append]
    refine ⟨hB, hN, ?_⟩
    intro a ha haN
    have h1 := hBbd a ha
    have h2 := hNlow a haN
    omega
  · intro a ha hb
    rw [List.mem_append] at ha hb
    rcases ha with ha | ha
    · rcases hb with hb | hb
      · exact hABd ha hb
      · have h1 := hAbd a ha
        have h2 := hNlow a hb
        omega
    · rw [List.mem_singleton] at ha
      subst ha
      rcases hb with hb | hb
      · have := hBbd _ hb
        omega
      · have := hNlow _ hb
        omega

lemma inv_init : Inv initialFlowState := by
  refine ⟨?_, ?_, ?_⟩ <;> simp [OwnersLive, idxList, graphIds, initialFlowState]

lemma inv_setPreview {s : FlowState} (cfg : Option PreviewConfigInput) (now : Nat)
    (h : Inv s) : Inv (setPreviewConfig s cfg now) := by
  cases cfg <;> exact h

lemma inv_confirm {s : FlowState} (h : Inv s) : Inv (confirmConfig s).2 := by
  obtain ⟨hown, hnd, hbd⟩ := h
  cases hp : s.previewConfig with
  | none =>
    have he : (confirmConfig s).2 = s := by rw [confirmConfig, hp]
    rw [he]
    exact ⟨hown, hnd, hbd⟩
  | some p =>
    have hsnd : (confirmConfig s).2 =
        { s with
            configNodes := s.configNodes ++
              [{ id := NodeId.config (s.nodeIdCounter + 1)
                 position := getNextConfigPosition s
                 data := { p with id := NodeId.config (s.nodeIdCounter + 1),
                                  isPreview := false } }]
            imageNodes := s.imageNodes ++
              (List.range p.batchCount).map
                (mkImageNode (NodeId.config (s.nodeIdCounter + 1)) p
                  (getNextConfigPosition s) s.nodeIdCounter)
            previewConfig := none
            editingConfigId := none
            isEditingModified := false
            nodeIdCounter := s.nodeIdCounter + 1 + p.batchCount } := by
      rw [confirmConfig_some hp]
    rw [hsnd]
    have hix : idxList
        { s with
            configNodes := s.configNodes ++
              [{ id := NodeId.config (s.nodeIdCounter + 1)
                 position := getNextConfigPosition s
                 data := { p with id := NodeId.config (s.nodeIdCounter + 1),
                                  isPreview := false } }]
            imageNodes := s.imageNodes ++
              (List.range p.batchCount).map
                (mkImageNode (NodeId.config (s.nodeIdCounter + 1)) p
                  (getNextConfigPosition s) s.nodeIdCounter)
            previewConfig := none
            editingConfigId := none
            isEditingModified := false
            nodeIdCounter := s.nodeIdCounter + 1 + p.batchCount } =
        (s.configNodes.map (fun n => NodeId.idx n.id) ++ [s.nodeIdCounter + 1]) ++
          (s.imageNodes.map (fun n => NodeId.idx n.id) ++
            (List.range p.batchCount).map (fun i => s.nodeIdCounter + 2 + i)) := by
      simp [idxList, List.map_append, List.map_map, Function.comp_def,
        mkImageNode, NodeId.idx]
    refine ⟨?_, ?_, ?_⟩
    · intro img himg
      simp only [List.mem_append] at himg
      rcases himg with himg | himg
      · obtain ⟨cfg, hcfg, hid⟩ := hown img himg
        exact ⟨cfg, List.mem_append_left _ hcfg, hid⟩
      · obtain ⟨i, hi, rfl⟩ := List.mem_map.mp himg
        exact ⟨_, List.mem_append_right _ (List.mem_singleton_self _), rfl⟩
    · rw [hix]
      refine nodup_append_fresh hnd hbd ?_ ?_
      · refine List.Nodup.map ?_ (List.nodup_range _)
        intro a b hab
        have hab' : s.nodeIdCounter + 2 + a = s.nodeIdCounter + 2 + b := hab
        omega
      · intro i hi
        obtain ⟨j, hj, rfl⟩ := List.mem_map.mp hi
        show s.nodeIdCounter + 2 ≤ s.nodeIdCounter + 2 + j
        omega
    · rw [hix]
      intro i hi
      show i ≤ s.nodeIdCounter + 1 + p.batchCount
      rcases List.mem_append.mp hi with hi1 | hi1
      · rcases List.mem_append.mp hi1 with hi2 | hi2
        · have := hbd i (List.mem_append_left _ hi2)
          omega
        · rw [List.mem_singleton] at hi2
          omega
      · rcases List.mem_append.mp hi1 with hi2 | hi2
        · have := hbd i (List.mem_append_right _ hi2)
          omega
        · obtain ⟨j, hj, hji⟩ := List.mem_map.mp hi2
          rw [List.mem_range] at hj
          rw [← hji]
          show s.nodeIdCounter + 2 + j ≤ s.nodeIdCounter + 1 + p.batchCount
          omega

lemma inv_updatePos {s : FlowState} (cid : NodeId) (x y : Int) (h : Inv s) :
    Inv (updateConfigPosition s cid x y) := by
  obtain ⟨hown, hnd, hbd⟩ := h
  cases hfind : s.configNodes.find? (fun n => n.id = cid) with
  | none =>
    have he : updateConfigPosition s cid x y = s := by
      rw [updateConfigPosition, hfind]
    rw [he]
    exact ⟨hown, hnd, hbd⟩
  | some node =>
    have he : updateConfigPosition s cid x y =
        { s with
            configNodes := s.configNodes.map (fun n =>
              if n.id = cid then { n with position := { x := x, y := y } } else n)
            imageNodes := s.imageNodes.map (fun n =>
              if n.data.configId = cid then
                { n with position :=
                    { x := n.position.x + (x - node.position.x),
                      y := n.position.y + (y - node.position.y) } }
              else n) } := by
      rw [updateConfigPosition, hfind]
    have e1 : (s.configNodes.map (fun n =>
        if n.id = cid then { n with position := ({ x := x, y := y } : Pos) } else n)).map
          (fun n => NodeId.idx n.id) = s.configNodes.map (fun n => NodeId.idx n.id) :=
      map_comp_eq _ _ _ (fun a _ => by by_cases hh : a.id = cid <;> simp [hh])
    have e2 : (s.imageNodes.map (fun n =>
        if n.data.configId = cid then
          { n with position :=
              ({ x := n.position.x + (x - node.position.x),
                 y := n.position.y + (y - node.position.y) } : Pos) }
        else n)).map (fun n => NodeId.idx n.id) =
          s.imageNodes.map (fun n => NodeId.idx n.id) :=
      map_comp_eq _ _ _ (fun a _ => by by_cases hh : a.data.configId = cid <;> simp [hh])
    have hix : idxList (updateConfigPosition s cid x y) = idxList s := by
      rw [he]
      simp only [idxList]
      rw [e1, e2]
    have hcnt : (updateConfigPosition s cid x y).nodeIdCounter = s.nodeIdCounter := by
      rw [he]
    refine ⟨?_, by rw [hix]; exact hnd, by rw [hix, hcnt]; exact hbd⟩
    rw [he]
    intro img himg
    obtain ⟨n, hn, rfl⟩ := List.mem_map.mp himg
    obtain ⟨cfg, hcfg, hid⟩ := hown n hn
    refine ⟨_, List.mem_map_of_mem
      (fun n => if n.id = cid then { n with position := ({ x := x, y := y } : Pos) } else n)
      hcfg, ?_⟩
    have hid1 : ((fun n : ConfigNode =>
        if n.id = cid then { n with position := ({ x := x, y := y } : Pos) } else n) cfg).id =
        cfg.id := by
      by_cases hh : cfg.id = cid <;> simp [hh]
    have hid2 : ((fun n : ImageNode =>
        if n.data.configId = cid then
          { n with position :=
              ({ x := n.position.x + (x - node.position.x),
                 y := n.position.y + (y - node.position.y) } : Pos) }
        else n) n).data.configId = n.data.configId := by
      by_cases hh : n.data.configId = cid <;> simp [hh]
    rw [hid1, hid2]
    exact hid

lemma inv_imageGenerated {s : FlowState} (iid : NodeId) (url dur : String)
    (blobId : Option String) (h : Inv s) :
    Inv (updateImageGenerated s iid url dur blobId) := by
  obtain ⟨hown, hnd, hbd⟩ := h
  have e2 : (s.imageNodes.map (fun n =>
      if n.id = iid then
        { n with data :=
            { n.data with
                imageUrl := some url
                imageBlobId := blobId
                duration := some dur
                isLoading := false } }
      else n)).map (fun n => NodeId.idx n.id) =
        s.imageNodes.map (fun n => NodeId.idx n.id) :=
    map_comp_eq _ _ _ (fun a _ => by by_cases hh : a.id = iid <;> simp [hh])
  have hix : idxList (updateImageGenerated s iid url dur blobId) = idxList s := by
    simp only [idxList, updateImageGenerated]
    rw [e2]
  refine ⟨?_, by rw [hix]; exact hnd, by rw [hix]; exact hbd⟩
  intro img himg
  obtain ⟨n, hn, rfl⟩ := List.mem_map.mp himg
  obtain ⟨cfg, hcfg, hid⟩ := hown n hn
  refine ⟨cfg, hcfg, ?_⟩
  by_cases hh : n.id = iid <;> simp [hh, hid]

lemma inv_imageError {s : FlowState} (iid : NodeId) (err : String) (h : Inv s) :
    Inv (updateImageError s iid err) := by
  obtain ⟨hown, hnd, hbd⟩ := h
  have e2 : (s.imageNodes.map (fun n =>
      if n.id = iid then
        { n with data := { n.data with error := some err, isLoading := false } }
      else n)).map (fun n => NodeId.idx n.id) =
        s.imageNodes.map (fun n => NodeId.idx n.id) :=
    map_comp_eq _ _ _ (fun a _ => by by_cases hh : a.id = iid <;> simp [hh])
  have hix : idxList (updateImageError s iid err) = idxList s := by
    simp only [idxList, updateImageError]
    rw [e2]
  refine ⟨?_, by rw [hix]; exact hnd, by rw [hix]; exact hbd⟩
  intro img himg
  obtain ⟨n, hn, rfl⟩ := List.mem_map.mp himg
  obtain ⟨cfg, hcfg, hid⟩ := hown n hn
  refine ⟨cfg, hcfg, ?_⟩
  by_cases hh : n.id = iid <;> simp [hh, hid]

lemma inv_delete {s : FlowState} (cid : NodeId) (h : Inv s) :
    Inv (deleteConfig s cid) := by
  obtain ⟨hown, hnd, hbd⟩ := h
  have h1 : List.Sublist (s.configNodes.filter (fun n => n.id ≠ cid)) s.configNodes :=
    List.filter_sublist _
  have h2 : List.Sublist (s.imageNodes.filter (fun n => n.data.configId ≠ cid))
      s.imageNodes :=
    List.filter_sublist _
  have hsub : List.Sublist (idxList (deleteConfig s cid)) (idxList s) := by
    simp only [idxList, deleteConfig]
    exact ((h1.map _).append (h2.map _))
  refine ⟨?_, hnd.sublist hsub, fun i hi => hbd i (hsub.subset hi)⟩
  intro img himg
  have himg' := List.mem_filter.mp himg
  obtain ⟨cfg, hcfg, hid⟩ := hown img himg'.1
  refine ⟨cfg, List.mem_filter.mpr ⟨hcfg, ?_⟩, hid⟩
  have hne : img.data.configId ≠ cid := by simpa using himg'.2
  simp [hid, hne]

lemma inv_clear {s : FlowState} : Inv (clearAll s) := by
  refine ⟨?_, ?_, ?_⟩ <;> simp [OwnersLive, idxList, graphIds, clearAll]

lemma reachable_inv {s : FlowState} (h : Reachable s) : Inv s := by
  induction h with
  | init => exact inv_init
  | setPreview cfg now _ ih => exact inv_setPreview cfg now ih
  | confirm _ ih => exact inv_confirm ih
  | updatePos cid x y _ ih => exact inv_updatePos cid x y ih
  | imageGenerated iid url dur blobId _ ih => exact inv_imageGenerated iid url dur blobId ih
  | imageError iid err _ ih => exact inv_imageError iid err ih
  | delete cid _ ih => exact inv_delete cid ih
  | clear _ _ => exact inv_clear

/-- C10: in every state reachable from the empty initial state by the store's
mutating operations, the identifiers of all configuration and image nodes are
pairwise distinct — `confirmConfig` mints ids strictly above the counter,
advances the counter past all of them, and `clearAll` resets the counter only
together with emptying the graph. -/
theorem reachable_graphIds_nodup :
    ∀ s : FlowState, Reachable s → (graphIds s).Nodup :=
  fun s h => List.Nodup.of_map NodeId.idx
    (by
      have he : (graphIds s).map NodeId.idx = idxList s := by
        simp [graphIds, idxList, List.map_append, List.map_map, Function.comp_def]
      rw [he]
      exact (reachable_inv h).2.1)

/-- C10 witness: the state after one set-preview-and-confirm round (one
configuration node and two image nodes) has pairwise-distinct node ids. -/
theorem reachable_graphIds_nodup_witness :
    Reachable (confirmConfig (setPreviewConfig initialFlowState
        (some ⟨"p", 2, 2, 2, 10⟩) 0)).2 ∧
    (graphIds (confirmConfig (setPreviewConfig initialFlowState
        (some ⟨"p", 2, 2, 2, 10⟩) 0)).2).Nodup :=
  ⟨Reachable.confirm (Reachable.setPreview _ 0 Reachable.init),
   reachable_graphIds_nodup _
     (Reachable.confirm (Reachable.setPreview _ 0 Reachable.init))⟩

/-! ## Claim C2: deleteConfig -/

lemma mem_deleteBlobs_blobs :
    ∀ (ids : List String) (cc : Cache) (pr : String × Blob),
      pr ∈ (deleteBlobs cc ids).blobs ↔ pr ∈ cc.blobs ∧ pr.1 ∉ ids := by
  intro ids
  induction ids with
  | nil => intro cc pr; simp [deleteBlobs]
  | cons i t ih =>
    intro cc pr
    have hstep : deleteBlobs cc (i :: t) = deleteBlobs (deleteBlob cc i) t := rfl
    rw [hstep, ih]
    simp only [deleteBlob, List.mem_filter, List.mem_cons, decide_eq_true_eq]
    constructor
    · rintro ⟨⟨h1, h2⟩, h3⟩
      exact ⟨h1, by tauto⟩
    · rintro ⟨h1, h2⟩
      refine ⟨⟨h1, ?_⟩, ?_⟩ <;> tauto

lemma mem_deleteBlobs_metas :
    ∀ (ids : List String) (cc : Cache) (m : BlobMeta),
      m ∈ (deleteBlobs cc ids).metas ↔ m ∈ cc.metas ∧ m.id ∉ ids := by
  intro ids
  induction ids with
  | nil => intro cc m; simp [deleteBlobs]
  | cons i t ih =>
    intro cc m
    have hstep : deleteBlobs cc (i :: t) = deleteBlobs (deleteBlob cc i) t := rfl
    rw [hstep, ih]
    simp only [deleteBlob, List.mem_filter, List.mem_cons, decide_eq_true_eq]
    constructor
    · rintro ⟨⟨h1, h2⟩, h3⟩
      exact ⟨h1, by tauto⟩
    · rintro ⟨h1, h2⟩
      refine ⟨⟨h1, ?_⟩, ?_⟩ <;> tauto

lemma configBlobIds_eq (s : FlowState) (c : NodeId) :
    configBlobIds s c =
      (s.imageNodes.filter (fun n => n.data.configId = c)).filterMap
        (fun n => n.data.imageBlobId) := by
  rw [configBlobIds]
  induction s.imageNodes with
  | nil => rfl
  | cons a t ih =>
    by_cases h1 : a.data.configId = c
    · cases h2 : a.data.imageBlobId with
      | none => simp [List.filter_cons, h1, h2, ih]
      | some b => simp [List.filter_cons, h1, h2, ih]
    · simp [List.filter_cons, h1, ih]

/-- C2: `deleteConfig c` (with its `deleteBlobs` side effect) keeps exactly
the configuration nodes other than `c` and the image nodes not owned by `c`,
and removes from both cache stores exactly the blob references held by the
removed image nodes, leaving every other blob untouched; the collected
references are exactly those of the removed image nodes; and in any reachable
state, when `c` is not a configuration node of the graph, both the graph and
the cache are left unchanged. -/
theorem deleteConfig_spec :
    ∀ (s : FlowState) (cache : Cache) (c : NodeId),
      (∀ n : ConfigNode, n ∈ (deleteConfigFull s cache c).1.configNodes ↔
          n ∈ s.configNodes ∧ n.id ≠ c) ∧
      (∀ n : ImageNode, n ∈ (deleteConfigFull s cache c).1.imageNodes ↔
          n ∈ s.imageNodes ∧ n.data.configId ≠ c) ∧
      (∀ pr : String × Blob, pr ∈ (deleteConfigFull s cache c).2.blobs ↔
          pr ∈ cache.blobs ∧ pr.1 ∉ configBlobIds s c) ∧
      (∀ m : BlobMeta, m ∈ (deleteConfigFull s cache c).2.metas ↔
          m ∈ cache.metas ∧ m.id ∉ configBlobIds s c) ∧
      (configBlobIds s c =
        (s.imageNodes.filter (fun n => n.data.configId = c)).filterMap
          (fun n => n.data.imageBlobId)) ∧
      (Reachable s → c ∉ s.configNodes.map (fun n => n.id) →
        deleteConfigFull s cache c = (s, cache)) := by
  intro s cache c
  have hcache : (deleteConfigFull s cache c).2 = deleteBlobs cache (configBlobIds s c) := by
    rw [deleteConfigFull]
    by_cases hE : (configBlobIds s c).isEmpty
    · have hnil : configBlobIds s c = [] := by
        cases hcb : configBlobIds s c with
        | nil => rfl
        | cons a t => rw [hcb] at hE; simp [List.isEmpty] at hE
      simp [hnil, deleteBlobs]
    · simp [hE]
  refine ⟨?_, ?_, ?_, ?_, configBlobIds_eq s c, ?_⟩
  · intro n
    show n ∈ (deleteConfig s c).configNodes ↔ _
    rw [deleteConfig]
    simp [List.mem_filter]
  · intro n
    show n ∈ (deleteConfig s c).imageNodes ↔ _
    rw [deleteConfig]
    simp [List.mem_filter]
  · intro pr
    rw [hcache]
    exact mem_deleteBlobs_blobs _ cache pr
  · intro m
    rw [hcache]
    exact mem_deleteBlobs_metas _ cache m
  · intro hreach hnotin
    have hown : OwnersLive s := (reachable_inv hreach).1
    have himg : ∀ n ∈ s.imageNodes, n.data.configId ≠ c := by
      intro n hn heq
      obtain ⟨cfg, hcfg, hid⟩ := hown n hn
      exact hnotin (hid.trans heq ▸ List.mem_map_of_mem (fun n => n.id) hcfg)
    have hcfgs : s.configNodes.filter (fun n => n.id ≠ c) = s.configNodes := by
      rw [List.filter_eq_self]
      intro n hn
      simp only [decide_eq_true_eq]
      intro heq
      exact hnotin (heq ▸ List.mem_map_of_mem (fun n => n.id) hn)
    have himgs : s.imageNodes.filter (fun n => n.data.configId ≠ c) = s.imageNodes := by
      rw [List.filter_eq_self]
      intro n hn
      simpa using himg n hn
    have hbe : configBlobIds s c = [] := by
      rw [configBlobIds_eq]
      have hnilf : s.imageNodes.filter (fun n => n.data.configId = c) = [] := by
        rw [List.filter_eq_nil_iff]
        intro n hn
        simpa using himg n hn
      rw [hnilf]
      rfl
    have hdel : deleteConfig s c = s := by
      rw [deleteConfig, hcfgs, himgs]
    rw [deleteConfigFull, hbe, hdel]
    simp [deleteBlobs]

/-- C2 witness: deleting an unknown configuration id from the (reachable)
initial state leaves the graph and the cache unchanged. -/
theorem deleteConfig_spec_witness :
    deleteConfigFull initialFlowState ⟨[("a", ⟨1⟩)], [⟨"a", 1, 0, 0⟩]⟩ (NodeId.config 1) =
      (initialFlowState, ⟨[("a", ⟨1⟩)], [⟨"a", 1, 0, 0⟩]⟩) :=
  (deleteConfig_spec initialFlowState ⟨[("a", ⟨1⟩)], [⟨"a", 1, 0, 0⟩]⟩
      (NodeId.config 1)).2.2.2.2.2 Reachable.init (by decide)

end Zenith

